import Mathlib

/-!
Verification of `skills/brave-search/openai-image-gen/scripts/gen.py`.

The script is embedded shallowly: pure helpers (`slugify`, filename
construction, prompt picking) become Lean functions on `String` / `List Char`;
the effectful fetcher `request_image` and the orchestrating `async_main`
become pure functions over an explicit environment describing the behaviour
of the external collaborators (the OpenAI client, the HTTP client, the
settings loader), returning records of the observable effects (result value,
files written, progress units signalled, exit code).
-/

set_option autoImplicit false
set_option maxHeartbeats 1000000

namespace ImageGen

/-! ### slugify (gen.py lines 54-58) -/

/-- The character class `[a-z0-9]` of the regexes in `slugify`,
by code point. -/
def isSlugChar (c : Char) : Bool :=
  (97 ≤ c.toNat && c.toNat ≤ 122) || (48 ≤ c.toNat && c.toNat ≤ 57)

/-- Python `str.lower` restricted to ASCII: maps `A`-`Z` (code points 65-90)
to the corresponding lowercase letter and leaves everything else unchanged. -/
def lowerChar (c : Char) : Char :=
  if 65 ≤ c.toNat && c.toNat ≤ 90 then Char.ofNat (c.toNat + 32) else c

/-- Python `str.strip`: drop characters satisfying `p` from both ends. -/
def pyStrip (p : Char → Bool) (l : List Char) : List Char :=
  ((l.dropWhile p).reverse.dropWhile p).reverse

/-- `re.sub` replacing each maximal run of characters satisfying `p` by the
single character `r`.  The Boolean argument records whether the previous
character belonged to a run whose replacement has already been emitted. -/
def subRuns (p : Char → Bool) (r : Char) : Bool → List Char → List Char
  | _, [] => []
  | inRun, c :: cs =>
    if p c then
      if inRun then subRuns p r true cs
      else r :: subRuns p r true cs
    else c :: subRuns p r false cs

/-- The class `[^a-z0-9]` of the first regex in `slugify`. -/
def nonSlug (c : Char) : Bool := !(isSlugChar c)

/-- The dash class of the second regex in `slugify`. -/
def isDash (c : Char) : Bool := c == '-'

/-- `slugify` from gen.py on character lists:
`text.lower().strip()`, then `re.sub("[^a-z0-9]+", "-", text)`, then
`re.sub("-{2,}", "-", text).strip("-")`, then `text or "image"`.
The second `re.sub` replaces each run of two or more dashes by one dash; a
lone dash is left alone, so the transformation coincides with replacing every
maximal dash run by a single dash, which is how `subRuns` renders it. -/
def slugifyChars (l : List Char) : List Char :=
  let t0 := pyStrip Char.isWhitespace (l.map lowerChar)
  let t1 := subRuns nonSlug '-' false t0
  let t2 := pyStrip isDash (subRuns isDash '-' false t1)
  if t2.isEmpty then "image".data else t2

/-- `slugify` on strings. -/
def slugify (s : String) : String := String.mk (slugifyChars s.data)

/-! ### Helper predicates for the slugify proofs -/

/-- No two adjacent characters of the list both satisfy `p`. -/
def noTwoRun (p : Char → Bool) : List Char → Bool
  | [] => true
  | [_] => true
  | a :: b :: cs => !(p a && p b) && noTwoRun p (b :: cs)

/-- The head of the list (if any) does not satisfy `p`. -/
def headSafe (p : Char → Bool) : List Char → Bool
  | [] => true
  | c :: _ => !(p c)

theorem noTwoRun_tail (p : Char → Bool) (a : Char) (l : List Char)
    (h : noTwoRun p (a :: l) = true) : noTwoRun p l = true := by
  cases l with
  | nil => rfl
  | cons b cs => simp only [noTwoRun, Bool.and_eq_true] at h; exact h.2

theorem headSafe_of_noTwoRun (p : Char → Bool) (c : Char) (cs : List Char)
    (h : noTwoRun p (c :: cs) = true) (hc : p c = true) : headSafe p cs = true := by
  cases cs with
  | nil => rfl
  | cons d ds =>
    simp only [noTwoRun, Bool.and_eq_true, Bool.not_eq_true', hc, Bool.true_and] at h
    simp [headSafe, h.1]

theorem noTwoRun_cons (p : Char → Bool) (x : Char) (t : List Char)
    (ht : noTwoRun p t = true) (hx : p x = true → headSafe p t = true) :
    noTwoRun p (x :: t) = true := by
  cases t with
  | nil => rfl
  | cons y t2 =>
    cases hxv : p x with
    | false => simp [noTwoRun, hxv, ht]
    | true =>
      have hy : p y = false := by
        have := hx hxv
        simpa [headSafe, Bool.not_eq_true'] using this
      simp [noTwoRun, hxv, hy, ht]

theorem headSafe_subRuns (p : Char → Bool) (r : Char) (l : List Char) :
    headSafe p (subRuns p r true l) = true := by
  induction l with
  | nil => rfl
  | cons c cs ih =>
    cases hc : p c with
    | true => simpa [subRuns, hc] using ih
    | false => simp [subRuns, hc, headSafe]

theorem noTwoRun_subRuns (p : Char → Bool) (r : Char) :
    ∀ (l : List Char) (b : Bool), noTwoRun p (subRuns p r b l) = true := by
  intro l
  induction l with
  | nil => intro _; rfl
  | cons c cs ih =>
    intro b
    cases hc : p c with
    | true =>
      cases b with
      | true => simpa [subRuns, hc] using ih true
      | false =>
        have : subRuns p r false (c :: cs) = r :: subRuns p r true cs := by
          simp [subRuns, hc]
        rw [this]
        exact noTwoRun_cons p r _ (ih true) (fun _ => headSafe_subRuns p r cs)
    | false =>
      have : subRuns p r b (c :: cs) = c :: subRuns p r false cs := by
        simp [subRuns, hc]
      rw [this]
      exact noTwoRun_cons p c _ (ih false) (fun hpc => by simp [hc] at hpc)

theorem mem_subRuns (p : Char → Bool) (r : Char) :
    ∀ (l : List Char) (b : Bool) (c : Char),
      c ∈ subRuns p r b l → c = r ∨ (c ∈ l ∧ p c = false) := by
  intro l
  induction l with
  | nil => intro b c h; simp [subRuns] at h
  | cons d ds ih =>
    intro b c h
    cases hd : p d with
    | true =>
      have hrec : c = r ∨ c ∈ subRuns p r true ds := by
        cases b with
        | true => simp only [subRuns, hd, if_true] at h; exact Or.inr h
        | false =>
          simp only [subRuns, hd, if_true] at h
          rcases List.mem_cons.mp h with rfl | h2
          · exact Or.inl rfl
          · exact Or.inr h2
      rcases hrec with rfl | h2
      · exact Or.inl rfl
      · rcases ih true c h2 with h3 | ⟨h4, h5⟩
        · exact Or.inl h3
        · exact Or.inr ⟨List.mem_cons_of_mem _ h4, h5⟩
    | false =>
      have : subRuns p r b (d :: ds) = d :: subRuns p r false ds := by
        simp [subRuns, hd]
      rw [this] at h
      rcases List.mem_cons.mp h with rfl | h2
      · exact Or.inr ⟨List.mem_cons_self _ _, hd⟩
      · rcases ih false c h2 with h3 | ⟨h4, h5⟩
        · exact Or.inl h3
        · exact Or.inr ⟨List.mem_cons_of_mem _ h4, h5⟩

theorem subRuns_eq_self (p : Char → Bool) (r : Char) :
    ∀ (l : List Char) (b : Bool), (∀ c ∈ l, p c = true → c = r) →
      noTwoRun p l = true → (b = true → headSafe p l = true) →
      subRuns p r b l = l := by
  intro l
  induction l with
  | nil => intro b _ _ _; rfl
  | cons c cs ih =>
    intro b hall hnt hhead
    cases hc : p c with
    | true =>
      cases b with
      | true =>
        exfalso
        have := hhead rfl
        simp [headSafe, hc] at this
      | false =>
        have hcr : c = r := hall c (List.mem_cons_self _ _) hc
        have hcs : subRuns p r true cs = cs :=
          ih true (fun d hd => hall d (List.mem_cons_of_mem _ hd))
            (noTwoRun_tail p c cs hnt)
            (fun _ => headSafe_of_noTwoRun p c cs hnt hc)
        have hstep : subRuns p r false (c :: cs) = r :: subRuns p r true cs := by
          simp [subRuns, hc]
        rw [hstep, hcs, hcr]
    | false =>
      have hcs : subRuns p r false cs = cs :=
        ih false (fun d hd => hall d (List.mem_cons_of_mem _ hd))
          (noTwoRun_tail p c cs hnt) (by intro h; simp at h)
      simp [subRuns, hc, hcs]

theorem subRuns_allP (p : Char → Bool) (r : Char) :
    ∀ l : List Char, (∀ c ∈ l, p c = true) →
      subRuns p r true l = [] ∧
        subRuns p r false l = (if l = [] then [] else [r]) := by
  intro l
  induction l with
  | nil => exact fun _ => ⟨rfl, rfl⟩
  | cons c cs ih =>
    intro hall
    have hc : p c = true := hall c (List.mem_cons_self _ _)
    have ihh := ih (fun d hd => hall d (List.mem_cons_of_mem _ hd))
    refine ⟨?_, ?_⟩
    · simp [subRuns, hc, ihh.1]
    · simp [subRuns, hc, ihh.1]

theorem noTwoRun_mono (p q : Char → Bool) (hpq : ∀ c, q c = true → p c = true) :
    ∀ l : List Char, noTwoRun p l = true → noTwoRun q l = true := by
  intro l
  induction l with
  | nil => intro h; exact h
  | cons a t ih =>
    intro h
    cases t with
    | nil => rfl
    | cons b cs =>
      have ht := ih (noTwoRun_tail p a _ h)
      cases ha : q a with
      | false => simp [noTwoRun, ha, ht]
      | true =>
        cases hb : q b with
        | false => simp [noTwoRun, ha, hb, ht]
        | true =>
          exfalso
          simp [noTwoRun, hpq a ha, hpq b hb] at h

theorem noTwoRun_dropWhile (q p : Char → Bool) :
    ∀ l : List Char, noTwoRun q l = true → noTwoRun q (l.dropWhile p) = true := by
  intro l
  induction l with
  | nil => intro h; exact h
  | cons a t ih =>
    intro h
    cases hp : p a with
    | true => simpa [List.dropWhile_cons, hp] using ih (noTwoRun_tail q a t h)
    | false => simpa [List.dropWhile_cons, hp] using h

theorem headSafe_dropWhile (p : Char → Bool) :
    ∀ l : List Char, headSafe p (l.dropWhile p) = true := by
  intro l
  induction l with
  | nil => rfl
  | cons a t ih =>
    cases hp : p a with
    | true => simpa [List.dropWhile_cons, hp] using ih
    | false => simp [List.dropWhile_cons, hp, headSafe]

theorem noTwoRun_append_single (p : Char → Bool) (a : Char) :
    ∀ l : List Char, noTwoRun p l = true →
      (∀ b, l.getLast? = some b → (p b && p a) = false) →
      noTwoRun p (l ++ [a]) = true := by
  intro l
  induction l with
  | nil => intro _ _; rfl
  | cons x t ih =>
    intro h hlast
    cases t with
    | nil =>
      have hx := hlast x rfl
      simp [noTwoRun, hx]
    | cons y t2 =>
      have h2 := ih (noTwoRun_tail p x _ h)
        (fun b hb => hlast b (by rw [List.getLast?_cons_cons]; exact hb))
      simp only [List.cons_append, noTwoRun, Bool.and_eq_true] at h h2 ⊢
      exact ⟨h.1, h2⟩

theorem noTwoRun_reverse (p : Char → Bool) :
    ∀ l : List Char, noTwoRun p l = true → noTwoRun p l.reverse = true := by
  intro l
  induction l with
  | nil => intro h; exact h
  | cons a t ih =>
    intro h
    rw [List.reverse_cons]
    apply noTwoRun_append_single p a _ (ih (noTwoRun_tail p a t h))
    intro b hb
    rw [List.getLast?_reverse] at hb
    cases t with
    | nil => simp at hb
    | cons y t2 =>
      simp only [List.head?_cons, Option.some.injEq] at hb
      subst hb
      simp only [noTwoRun, Bool.and_eq_true, Bool.not_eq_true'] at h
      rw [Bool.and_comm]
      exact h.1

theorem getLast_dropWhile (p : Char → Bool) :
    ∀ l : List Char, l.dropWhile p = [] ∨ (l.dropWhile p).getLast? = l.getLast? := by
  intro l
  induction l with
  | nil => exact Or.inl rfl
  | cons a t ih =>
    cases hp : p a with
    | false => right; simp [List.dropWhile_cons, hp]
    | true =>
      rcases ih with h | h
      · left; simpa [List.dropWhile_cons, hp] using h
      · cases t with
        | nil => left; simp [List.dropWhile_cons, hp]
        | cons y t2 =>
          right
          rw [List.dropWhile_cons_of_pos hp, h, List.getLast?_cons_cons]

theorem headSafe_iff (p : Char → Bool) (l : List Char) :
    headSafe p l = true ↔ (∀ c, l.head? = some c → p c = false) := by
  cases l with
  | nil => simp [headSafe]
  | cons a t => simp [headSafe, Bool.not_eq_true']

theorem mem_of_mem_pyStrip (p : Char → Bool) (l : List Char) (c : Char)
    (h : c ∈ pyStrip p l) : c ∈ l := by
  unfold pyStrip at h
  rw [List.mem_reverse] at h
  have h1 := (List.dropWhile_sublist p).subset h
  rw [List.mem_reverse] at h1
  exact (List.dropWhile_sublist p).subset h1

theorem noTwoRun_pyStrip (q p : Char → Bool) (l : List Char)
    (h : noTwoRun q l = true) : noTwoRun q (pyStrip p l) = true := by
  unfold pyStrip
  exact noTwoRun_reverse q _
    (noTwoRun_dropWhile q p _ (noTwoRun_reverse q _ (noTwoRun_dropWhile q p l h)))

theorem headSafe_pyStrip_getLast (p : Char → Bool) (l : List Char) :
    ∀ c, (pyStrip p l).getLast? = some c → p c = false := by
  intro c hc
  unfold pyStrip at hc
  rw [List.getLast?_reverse] at hc
  exact (headSafe_iff p _).mp (headSafe_dropWhile p (l.dropWhile p).reverse) c hc

theorem headSafe_pyStrip_head (p : Char → Bool) (l : List Char) :
    ∀ c, (pyStrip p l).head? = some c → p c = false := by
  intro c hc
  unfold pyStrip at hc
  rw [List.head?_reverse] at hc
  rcases getLast_dropWhile p (l.dropWhile p).reverse with h | h
  · rw [h] at hc; simp at hc
  · rw [h, List.getLast?_reverse] at hc
    exact (headSafe_iff p _).mp (headSafe_dropWhile p l) c hc

theorem dropWhile_eq_self_of_headSafe (p : Char → Bool) (l : List Char)
    (h : headSafe p l = true) : l.dropWhile p = l := by
  cases l with
  | nil => rfl
  | cons a t =>
    simp only [headSafe, Bool.not_eq_true'] at h
    simp [List.dropWhile_cons, h]

theorem pyStrip_eq_self (p : Char → Bool) (l : List Char)
    (h1 : headSafe p l = true) (h2 : headSafe p l.reverse = true) :
    pyStrip p l = l := by
  unfold pyStrip
  rw [dropWhile_eq_self_of_headSafe p l h1,
    dropWhile_eq_self_of_headSafe p l.reverse h2, List.reverse_reverse]

theorem map_eq_self_of (f : Char → Char) :
    ∀ l : List Char, (∀ c ∈ l, f c = c) → l.map f = l := by
  intro l
  induction l with
  | nil => intro _; rfl
  | cons a t ih =>
    intro h
    simp [h a (List.mem_cons_self _ _),
      ih (fun c hc => h c (List.mem_cons_of_mem _ hc))]

theorem lowerChar_eq_self (c : Char) (h : isSlugChar c = true ∨ c = '-') :
    lowerChar c = c := by
  have hn : ¬(65 ≤ c.toNat ∧ c.toNat ≤ 90) := by
    rcases h with h | rfl
    · simp only [isSlugChar, Bool.or_eq_true, Bool.and_eq_true,
        decide_eq_true_eq] at h
      omega
    · decide
  unfold lowerChar
  rw [if_neg (by simp only [Bool.and_eq_true, decide_eq_true_eq]; exact hn)]

theorem not_whitespace_of_slugChar (c : Char) (h : isSlugChar c = true) :
    c.isWhitespace = false := by
  cases hw : c.isWhitespace with
  | false => rfl
  | true =>
    exfalso
    simp only [Char.isWhitespace, Bool.or_eq_true, decide_eq_true_eq] at hw
    rcases hw with ((rfl | rfl) | rfl) | rfl <;> revert h <;> decide

/-- The shape of every non-fallback `slugify` output: only `[a-z0-9-]`
characters, no two adjacent non-alphanumeric characters, and no dash at
either end. -/
def GoodSlug (l : List Char) : Prop :=
  (∀ c ∈ l, isSlugChar c = true ∨ c = '-')
  ∧ noTwoRun nonSlug l = true
  ∧ headSafe isDash l = true
  ∧ headSafe isDash l.reverse = true

theorem headSafe_ws_of_good (l : List Char)
    (hmem : ∀ c ∈ l, isSlugChar c = true ∨ c = '-')
    (hh : headSafe isDash l = true) :
    headSafe Char.isWhitespace l = true := by
  cases l with
  | nil => rfl
  | cons a t =>
    simp only [headSafe, isDash, Bool.not_eq_true'] at hh ⊢
    rcases hmem a (List.mem_cons_self _ _) with h | rfl
    · exact not_whitespace_of_slugChar a h
    · simp at hh

theorem slugifyChars_fixpoint (l : List Char) (hg : GoodSlug l) (hne : l ≠ []) :
    slugifyChars l = l := by
  obtain ⟨hmem, hnt, hh, hl⟩ := hg
  have hmap : l.map lowerChar = l :=
    map_eq_self_of lowerChar l (fun c hc => lowerChar_eq_self c (hmem c hc))
  have h0 : pyStrip Char.isWhitespace (l.map lowerChar) = l := by
    rw [hmap]
    exact pyStrip_eq_self _ l (headSafe_ws_of_good l hmem hh)
      (headSafe_ws_of_good l.reverse
        (fun c hc => hmem c (List.mem_reverse.mp hc)) hl)
  have h1 : subRuns nonSlug '-' false l = l :=
    subRuns_eq_self nonSlug '-' l false
      (fun c hc hpc => by
        rcases hmem c hc with h | rfl
        · exfalso; simp [nonSlug, h] at hpc
        · rfl)
      hnt (by intro h; simp at h)
  have hntDash : noTwoRun isDash l = true :=
    noTwoRun_mono nonSlug isDash
      (fun c hc => by
        have hcd : c = '-' := by simpa [isDash] using hc
        subst hcd; decide)
      l hnt
  have h2 : subRuns isDash '-' false l = l :=
    subRuns_eq_self isDash '-' l false
      (fun c _ hc => by simpa [isDash] using hc)
      hntDash (by intro h; simp at h)
  have h3 : pyStrip isDash l = l := pyStrip_eq_self isDash l hh hl
  simp only [slugifyChars, h0, h1, h2, h3]
  rw [if_neg (by simpa [List.isEmpty_iff] using hne)]

theorem slugifyChars_good (l : List Char) :
    GoodSlug (slugifyChars l) ∧ slugifyChars l ≠ [] := by
  have himage : GoodSlug ("image".data) ∧ "image".data ≠ [] := by
    refine ⟨⟨?_, ?_, ?_, ?_⟩, ?_⟩ <;> decide
  have hmem1 : ∀ c ∈ subRuns nonSlug '-' false
      (pyStrip Char.isWhitespace (l.map lowerChar)),
      isSlugChar c = true ∨ c = '-' := by
    intro c hc
    rcases mem_subRuns nonSlug '-' _ false c hc with rfl | ⟨_, hpc⟩
    · exact Or.inr rfl
    · left; simpa [nonSlug] using hpc
  have hnt1 : noTwoRun nonSlug (subRuns nonSlug '-' false
      (pyStrip Char.isWhitespace (l.map lowerChar))) = true :=
    noTwoRun_subRuns nonSlug '-' _ false
  have hcollapse : subRuns isDash '-' false (subRuns nonSlug '-' false
      (pyStrip Char.isWhitespace (l.map lowerChar))) =
      subRuns nonSlug '-' false (pyStrip Char.isWhitespace (l.map lowerChar)) :=
    subRuns_eq_self isDash '-' _ false
      (fun c _ hc => by simpa [isDash] using hc)
      (noTwoRun_mono nonSlug isDash
        (fun c hc => by
          have hcd : c = '-' := by simpa [isDash] using hc
          subst hcd; decide)
        _ hnt1)
      (by intro h; simp at h)
  simp only [slugifyChars, hcollapse]
  by_cases hemp : (pyStrip isDash (subRuns nonSlug '-' false
      (pyStrip Char.isWhitespace (l.map lowerChar)))).isEmpty = true
  · rw [if_pos hemp]; exact himage
  · rw [if_neg hemp]
    refine ⟨⟨?_, ?_, ?_, ?_⟩, ?_⟩
    · intro c hc
      exact hmem1 c (mem_of_mem_pyStrip isDash _ c hc)
    · exact noTwoRun_pyStrip nonSlug isDash _ hnt1
    · exact (headSafe_iff isDash _).mpr (headSafe_pyStrip_head isDash _)
    · refine (headSafe_iff isDash _).mpr ?_
      intro c hc
      rw [List.head?_reverse] at hc
      exact headSafe_pyStrip_getLast isDash _ c hc
    · simpa [List.isEmpty_iff] using hemp

theorem slugifyChars_image_of_nonalnum (l : List Char)
    (h : ∀ c ∈ l, isSlugChar (lowerChar c) = false) :
    slugifyChars l = "image".data := by
  have hall : ∀ c ∈ pyStrip Char.isWhitespace (l.map lowerChar),
      nonSlug c = true := by
    intro c hc
    have hc2 := mem_of_mem_pyStrip _ _ c hc
    rcases List.mem_map.mp hc2 with ⟨d, hd, rfl⟩
    simp [nonSlug, h d hd]
  have h1 := (subRuns_allP nonSlug '-' _ hall).2
  simp only [slugifyChars, h1]
  by_cases hnil : pyStrip Char.isWhitespace (l.map lowerChar) = []
  · rw [if_pos hnil]; rfl
  · rw [if_neg hnil]; rfl

/-- C5: `slugify` is idempotent, yields only characters from `[a-z0-9-]`,
never starts or ends with a dash, and returns `"image"` whenever no character
of the input lowercases into `[a-z0-9]`; in particular
`slugify "!!!" = "image"`. -/
theorem C5_slugify_algebra (x : String) :
    slugify (slugify x) = slugify x
    ∧ (∀ c ∈ (slugify x).data, isSlugChar c = true ∨ c = '-')
    ∧ (slugify x).data.head? ≠ some '-'
    ∧ (slugify x).data.getLast? ≠ some '-'
    ∧ ((∀ c ∈ x.data, isSlugChar (lowerChar c) = false) → slugify x = "image")
    ∧ slugify "!!!" = "image" := by
  obtain ⟨⟨hmem, hnt, hh, hl⟩, hne⟩ := slugifyChars_good x.data
  refine ⟨?_, hmem, ?_, ?_, ?_, by decide⟩
  · show String.mk (slugifyChars (slugifyChars x.data)) =
      String.mk (slugifyChars x.data)
    rw [slugifyChars_fixpoint _ ⟨hmem, hnt, hh, hl⟩ hne]
  · intro heq
    have := (headSafe_iff isDash _).mp hh '-' heq
    simp [isDash] at this
  · intro heq
    have := (headSafe_iff isDash _).mp hl '-'
      (by rw [List.head?_reverse]; exact heq)
    simp [isDash] at this
  · intro hyp
    show String.mk (slugifyChars x.data) = "image"
    rw [slugifyChars_image_of_nonalnum x.data hyp]

theorem C5_witness :
    slugify (slugify "!!!") = slugify "!!!" ∧ slugify "!!!" = "image" :=
  ⟨(C5_slugify_algebra "!!!").1,
    (C5_slugify_algebra "!!!").2.2.2.2.1 (by decide)⟩

/-! ### Output filename (gen.py line 143) -/

/-- Python `f"{idx:03d}"`: decimal digits zero-padded to width 3 (values of
1000 and above print unpadded; the script's indices stay below that). -/
def pad3 (n : Nat) : String :=
  if n < 1000 then
    String.mk [Nat.digitChar (n / 100), Nat.digitChar (n / 10 % 10),
      Nat.digitChar (n % 10)]
  else toString n

/-- `f"{idx:03d}-{slugify(prompt)[:40]}.png"`. -/
def fileName (idx : Nat) (prompt : String) : String :=
  pad3 idx ++ "-" ++ (slugify prompt).take 40 ++ ".png"

/-! ### Prompt source (gen.py lines 69-106 and 256) -/

def subjects : List String :=
  ["a lobster astronaut",
   "a brutalist lighthouse",
   "a cozy reading nook",
   "a cyberpunk noodle shop",
   "a Vienna street at dusk",
   "a minimalist product photo",
   "a surreal underwater library",
   "a futuristic solarpunk city",
   "a retro vaporwave landscape"]

def styles : List String :=
  ["ultra-detailed studio photo",
   "35mm film still",
   "isometric illustration",
   "editorial photography",
   "soft watercolor",
   "architectural render",
   "high-contrast monochrome",
   "low-poly 3d render",
   "oil painting"]

def lighting : List String :=
  ["golden hour",
   "overcast soft light",
   "neon lighting",
   "dramatic rim light",
   "candlelight",
   "foggy atmosphere",
   "bioluminescent glow"]

/-- `pick_prompts` (gen.py lines 69-106).  Each `random.choice` call is
modelled by an oracle supplying an arbitrary index for every iteration,
reduced modulo the list length because `random.choice` always returns an
element of its argument. -/
def pick_prompts (count : Nat) (oS oSub oL : Nat → Nat) : List String :=
  (List.range count).map (fun i =>
    (styles.getD (oS i % styles.length) "") ++ " of " ++
    (subjects.getD (oSub i % subjects.length) "") ++ ", " ++
    (lighting.getD (oL i % lighting.length) ""))

/-- Python truthiness of `str | None`: `None` and `""` are falsy. -/
def truthyStr : Option String → Bool
  | none => false
  | some s => !(s == "")

/-- Line 256:
`prompts = [config.prompt] * config.count if config.prompt else pick_prompts(config.count)`. -/
def selectPrompts (prompt : Option String) (count : Nat)
    (oS oSub oL : Nat → Nat) : List String :=
  if truthyStr prompt then List.replicate count (prompt.getD "")
  else pick_prompts count oS oSub oL

/-! ### Request parameters (gen.py lines 124-134) -/

/-- Validated application configuration (gen.py lines 37-51); `count` has
already passed the `ge=1, le=50` bound check. -/
structure AppConfig where
  prompt : Option String
  count : Nat
  model : String
  size : String
  quality : String

/-- The params dict passed to `client.images.generate`. -/
structure GenParams where
  model : String
  prompt : String
  size : String
  quality : String
  n : Nat
  response_format : Option String
deriving DecidableEq

/-- Python `str.startswith`: a character-sequence prefix test. -/
def startsWithPy (s pre : String) : Bool := pre.data.isPrefixOf s.data

/-- Lines 124-134: base params, then `response_format = "b64_json"` added
exactly when `config.model.startswith("dall-e")`. -/
def buildParams (config : AppConfig) (prompt : String) : GenParams :=
  let params : GenParams :=
    { model := config.model, prompt := prompt, size := config.size,
      quality := config.quality, n := 1, response_format := none }
  if startsWithPy config.model "dall-e" then
    { params with response_format := some "b64_json" }
  else params

/-! ### Image fetcher (gen.py lines 109-165) -/

/-- Outcome of `client.images.generate(**params)` followed by
`model_dump()["data"][0]`: either some exception was raised, or the optional
`b64_json` and `url` fields of the first data item were obtained. -/
inductive ApiResult where
  | raises
  | returns (b64 : Option String) (url : Option String)

/-- Outcome of `base64.b64decode`. -/
inductive DecodeResult where
  | raises
  | bytes (png : List Nat)

/-- Outcome of `http_client.get(url, follow_redirects=True)` together with
`raise_for_status()`: an exception, or the response content. -/
inductive DownloadResult where
  | raises
  | bytes (content : List Nat)

/-- Behaviour of the external collaborators during one `request_image` call. -/
structure FetchEnv where
  api : ApiResult
  decode : String → DecodeResult
  download : String → DownloadResult

/-- A successful generation record, the dict `{"prompt": ..., "file": ...}`
of line 157. -/
structure Entry where
  prompt : String
  file : String
deriving DecidableEq

/-- Observable effects of one `request_image` call: the returned value, the
files written into the output directory, how many times `progress.advance`
ran, and the params sent to the API. -/
structure FetchOutcome where
  result : Option Entry
  files : List (String × List Nat)
  advances : Nat
  params : GenParams

/-- `request_image` (gen.py lines 109-165).  Any exception from the API
call, the base64 decode, the download, or `raise_for_status` is caught by
the `except` arms, which log, run `progress.advance` once and return `None`.
The missing-image-data arm (lines 152-154) returns `None` directly, without
reaching either `progress.advance` call. -/
def request_image (env : FetchEnv) (config : AppConfig) (prompt : String)
    (idx : Nat) : FetchOutcome :=
  let params := buildParams config prompt
  match env.api with
  | ApiResult.raises => ⟨none, [], 1, params⟩
  | ApiResult.returns b64 url =>
    let filename := fileName idx prompt
    if truthyStr b64 then
      match env.decode (b64.getD "") with
      | DecodeResult.raises => ⟨none, [], 1, params⟩
      | DecodeResult.bytes png =>
        ⟨some ⟨prompt, filename⟩, [(filename, png)], 1, params⟩
    else if truthyStr url then
      match env.download (url.getD "") with
      | DownloadResult.raises => ⟨none, [], 1, params⟩
      | DownloadResult.bytes content =>
        ⟨some ⟨prompt, filename⟩, [(filename, content)], 1, params⟩
    else
      ⟨none, [], 0, params⟩

/-! ### Batch orchestrator (gen.py lines 258-274) -/

/-- The task list of lines 266-269: `request_image` over
`enumerate(prompts, start=1)`; `asyncio.gather` returns one outcome per task,
in task order.  `envf idx` is the external world met by request `idx`. -/
def gatherOutcomes (envf : Nat → FetchEnv) (config : AppConfig) :
    Nat → List String → List FetchOutcome
  | _, [] => []
  | idx, p :: ps =>
    request_image (envf idx) config p idx :: gatherOutcomes envf config (idx + 1) ps

/-- Line 270: `results = await asyncio.gather(*tasks)`. -/
def gatherResults (envf : Nat → FetchEnv) (config : AppConfig)
    (prompts : List String) : List (Option Entry) :=
  (gatherOutcomes envf config 1 prompts).map FetchOutcome.result

/-- Line 271: `items = [r for r in results if r is not None]`. -/
def batchItems (envf : Nat → FetchEnv) (config : AppConfig)
    (prompts : List String) : List Entry :=
  (gatherResults envf config prompts).filterMap id

/-- Every file written during the batch, listed per request in submission
order (each request writes into its own distinct filename). -/
def batchFiles (envf : Nat → FetchEnv) (config : AppConfig)
    (prompts : List String) : List (String × List Nat) :=
  (gatherOutcomes envf config 1 prompts).flatMap FetchOutcome.files

/-- Line 274: `prompts.json` is written with exactly `items`. -/
def batchManifest (envf : Nat → FetchEnv) (config : AppConfig)
    (prompts : List String) : List Entry :=
  batchItems envf config prompts

/-! ### async_main (gen.py lines 202-277) -/

/-- Outcome of `Settings()` (lines 206-211): raising means the API key was
missing or invalid, and `async_main` returns 1. -/
inductive SettingsResult where
  | raises
  | ok

/-- The CLI arguments delivered by argparse (lines 214-231). -/
structure CliArgs where
  prompt : Option String
  count : Int
  model : String
  size : String
  quality : String

/-- Pydantic validation of `AppConfig` (lines 234-245): `count` must satisfy
`ge=1, le=50`; the remaining fields are accepted as given. -/
def validateConfig (a : CliArgs) : Option AppConfig :=
  if 1 ≤ a.count ∧ a.count ≤ 50 then
    some ⟨a.prompt, a.count.toNat, a.model, a.size, a.quality⟩
  else none

/-- Environment of one whole run. -/
structure MainEnv where
  settings : SettingsResult
  args : CliArgs
  fetch : Nat → FetchEnv
  oS : Nat → Nat
  oSub : Nat → Nat
  oL : Nat → Nat

/-- Artifacts produced by the generation phase. -/
structure RunOutput where
  manifest : List Entry
  files : List (String × List Nat)

/-- `async_main` (gen.py lines 202-277): the exit code, paired with the
generation artifacts (`none` when the run aborts before any generation
work begins). -/
def async_main (env : MainEnv) : Int × Option RunOutput :=
  match env.settings with
  | SettingsResult.raises => (1, none)
  | SettingsResult.ok =>
    match validateConfig env.args with
    | none => (2, none)
    | some config =>
      let prompts := selectPrompts config.prompt config.count env.oS env.oSub env.oL
      (0, some ⟨batchManifest env.fetch config prompts,
        batchFiles env.fetch config prompts⟩)

/-! ### Filename claims -/

theorem string_data_append (s t : String) : (s ++ t).data = s.data ++ t.data := by
  cases s; cases t; rfl

theorem digitChar_inj : ∀ a < 10, ∀ b < 10,
    Nat.digitChar a = Nat.digitChar b → a = b := by decide

theorem pad3_data (n : Nat) (h : n < 1000) :
    (pad3 n).data = [Nat.digitChar (n / 100), Nat.digitChar (n / 10 % 10),
      Nat.digitChar (n % 10)] := by
  unfold pad3
  rw [if_pos h]

theorem pad3_data_inj (i j : Nat) (hi : i < 1000) (hj : j < 1000)
    (h : (pad3 i).data = (pad3 j).data) : i = j := by
  rw [pad3_data i hi, pad3_data j hj] at h
  simp only [List.cons.injEq, and_true] at h
  have h100 : i / 100 = j / 100 :=
    digitChar_inj _ (by omega) _ (by omega) h.1
  have h10 : i / 10 % 10 = j / 10 % 10 :=
    digitChar_inj _ (by omega) _ (by omega) h.2.1
  have h1 : i % 10 = j % 10 :=
    digitChar_inj _ (by omega) _ (by omega) h.2.2
  omega

theorem fileName_inj (i j : Nat) (p : String) (hi : i < 1000) (hj : j < 1000)
    (hne : i ≠ j) : fileName i p ≠ fileName j p := by
  intro h
  apply hne
  apply pad3_data_inj i j hi hj
  have hd := congrArg String.data h
  simp only [fileName, string_data_append, List.append_assoc] at hd
  exact (List.append_inj hd
    (by rw [pad3_data i hi, pad3_data j hj]; simp)).1

/-- C6: the output filename is exactly the zero-padded 3-digit index, a
dash, the slug of the prompt truncated to 40 characters, and `.png`; for
indices in `1..K` with `K ≤ 50` the filenames are pairwise distinct, even
when every request shares one prompt. -/
theorem C6_filename_shape_and_distinct (i j K : Nat) (p : String)
    (hK : K ≤ 50) (_hi1 : 1 ≤ i) (hiK : i ≤ K) (_hj1 : 1 ≤ j) (hjK : j ≤ K)
    (hne : i ≠ j) :
    (fileName i p).data
      = (pad3 i).data ++ '-' :: ((slugify p).take 40).data
          ++ ['.', 'p', 'n', 'g']
    ∧ fileName i p ≠ fileName j p := by
  constructor
  · have hdash : ("-" : String).data = ['-'] := rfl
    have hpng : (".png" : String).data = ['.', 'p', 'n', 'g'] := rfl
    simp only [fileName, string_data_append, hdash, hpng, List.append_assoc,
      List.singleton_append]
  · exact fileName_inj i j p (by omega) (by omega) hne

theorem C6_witness :
    (fileName 1 "a red bicycle").data
      = (pad3 1).data ++ '-' :: ((slugify "a red bicycle").take 40).data
          ++ ['.', 'p', 'n', 'g']
    ∧ fileName 1 "a red bicycle" ≠ fileName 2 "a red bicycle" :=
  C6_filename_shape_and_distinct 1 2 2 "a red bicycle" (by decide) (by decide)
    (by decide) (by decide) (by decide) (by decide)

/-! ### Prompt source claims -/

theorem getD_mem_of_ne_nil (l : List String) (k : Nat) (hl : l ≠ []) :
    l.getD (k % l.length) "" ∈ l := by
  have hlen : 0 < l.length := List.length_pos.mpr hl
  have hk : k % l.length < l.length := Nat.mod_lt _ hlen
  rw [List.getD_eq_getElem?_getD, List.getElem?_eq_getElem hk]
  exact List.getElem_mem hk

/-- C7: with a non-empty fixed prompt the prompt source yields that prompt
repeated exactly N times; with no fixed prompt and N in [1,50] it yields
exactly N non-empty strings, each of the form
`"<style> of <subject>, <lighting>"` with every component drawn from its
fixed non-empty vocabulary. -/
theorem C7_prompt_source (N : Nat) (p : String) (oS oSub oL : Nat → Nat)
    (hp : p ≠ "") (_hN1 : 1 ≤ N) (_hN50 : N ≤ 50) :
    selectPrompts (some p) N oS oSub oL = List.replicate N p
    ∧ (selectPrompts none N oS oSub oL).length = N
    ∧ (∀ s ∈ selectPrompts none N oS oSub oL,
        s ≠ "" ∧ ∃ st ∈ styles, ∃ su ∈ subjects, ∃ li ∈ lighting,
          s = st ++ " of " ++ su ++ ", " ++ li)
    ∧ styles ≠ [] ∧ subjects ≠ [] ∧ lighting ≠ [] := by
  refine ⟨?_, ?_, ?_, by decide, by decide, by decide⟩
  · simp [selectPrompts, truthyStr, hp]
  · simp [selectPrompts, truthyStr, pick_prompts]
  · intro s hs
    simp only [selectPrompts, truthyStr, Bool.false_eq_true, if_false,
      pick_prompts, List.mem_map, List.mem_range] at hs
    obtain ⟨i, _, rfl⟩ := hs
    refine ⟨?_, _, getD_mem_of_ne_nil styles (oS i) (by decide),
      _, getD_mem_of_ne_nil subjects (oSub i) (by decide),
      _, getD_mem_of_ne_nil lighting (oL i) (by decide), rfl⟩
    intro hcontra
    have hlen := congrArg String.length hcontra
    simp only [String.length_append] at hlen
    have h4 : (" of " : String).length = 4 := rfl
    have h2 : (", " : String).length = 2 := rfl
    have h0 : ("" : String).length = 0 := rfl
    omega

theorem C7_witness :
    selectPrompts (some "a red bicycle") 3 (fun _ => 0) (fun _ => 0) (fun _ => 0)
      = List.replicate 3 "a red bicycle"
    ∧ (selectPrompts none 3 (fun _ => 0) (fun _ => 0) (fun _ => 0)).length = 3 :=
  ⟨(C7_prompt_source 3 "a red bicycle" (fun _ => 0) (fun _ => 0) (fun _ => 0)
      (by decide) (by decide) (by decide)).1,
   (C7_prompt_source 3 "a red bicycle" (fun _ => 0) (fun _ => 0) (fun _ => 0)
      (by decide) (by decide) (by decide)).2.1⟩

/-- C10: an empty fixed prompt is falsy under Python truthiness, so the run
uses random prompts, exactly as when no prompt is supplied at all. -/
theorem C10_empty_prompt_falls_back (count : Nat) (oS oSub oL : Nat → Nat) :
    selectPrompts (some "") count oS oSub oL = pick_prompts count oS oSub oL
    ∧ selectPrompts none count oS oSub oL = pick_prompts count oS oSub oL := by
  constructor <;> simp [selectPrompts, truthyStr]

/-! ### Request-parameter claim -/

/-- C8: the generation request carries `response_format = "b64_json"` exactly
when the model name starts with `"dall-e"`; otherwise no `response_format`
parameter is sent. -/
theorem C8_response_format (config : AppConfig) (prompt : String) :
    ((buildParams config prompt).response_format = some "b64_json"
      ↔ startsWithPy config.model "dall-e" = true)
    ∧ (startsWithPy config.model "dall-e" = false
      → (buildParams config prompt).response_format = none) := by
  cases h : startsWithPy config.model "dall-e" with
  | true => simp [buildParams, h]
  | false => simp [buildParams, h]

theorem C8_witness :
    (buildParams ⟨none, 8, "dall-e-3", "1024x1024", "high"⟩ "p").response_format
      = some "b64_json"
    ∧ (buildParams ⟨none, 8, "gpt-image-1-mini", "1024x1024", "high"⟩
        "p").response_format = none :=
  ⟨(C8_response_format ⟨none, 8, "dall-e-3", "1024x1024", "high"⟩ "p").1.mpr
      (by decide),
   (C8_response_format ⟨none, 8, "gpt-image-1-mini", "1024x1024", "high"⟩ "p").2
      (by decide)⟩

/-! ### Orchestrator claims -/

theorem gatherOutcomes_length (envf : Nat → FetchEnv) (config : AppConfig) :
    ∀ (prompts : List String) (idx : Nat),
      (gatherOutcomes envf config idx prompts).length = prompts.length := by
  intro prompts
  induction prompts with
  | nil => intro _; rfl
  | cons p ps ih => intro idx; simp [gatherOutcomes, ih]

theorem length_filterMap_id (l : List (Option Entry)) :
    (l.filterMap id).length = l.length - l.countP (fun r => r.isNone) := by
  induction l with
  | nil => rfl
  | cons a t ih =>
    have hle := List.countP_le_length (fun r : Option Entry => r.isNone) (l := t)
    cases a with
    | none =>
      have h1 : List.filterMap id (none :: t) = List.filterMap id t := by simp
      have h2 : List.countP (fun r : Option Entry => r.isNone) (none :: t)
          = List.countP (fun r : Option Entry => r.isNone) t + 1 := by
        simp [List.countP_cons]
      rw [h1, h2, ih, List.length_cons]
      omega
    | some e =>
      have h1 : List.filterMap id (some e :: t) = e :: List.filterMap id t := by
        simp
      have h2 : List.countP (fun r : Option Entry => r.isNone) (some e :: t)
          = List.countP (fun r : Option Entry => r.isNone) t := by
        simp [List.countP_cons]
      rw [h1, h2, List.length_cons, ih, List.length_cons]
      omega

theorem filterMap_id_map_some_sublist (l : List (Option Entry)) :
    ((l.filterMap id).map some).Sublist l := by
  induction l with
  | nil => simp
  | cons a t ih =>
    cases a with
    | none =>
      simp only [List.filterMap_cons]
      exact ih.cons none
    | some e =>
      simp only [List.filterMap_cons, id_eq, List.map_cons]
      exact ih.cons₂ (some e)

/-- C1: the orchestrator produces one outcome per request (it waits for all
of them), returns exactly `K - F` successes where `F` counts the failed
requests, and keeps the successes in original submission order: the item
list, viewed through `some`, is a sublist of the full result sequence. -/
theorem C1_orchestrator_counts_and_order (envf : Nat → FetchEnv)
    (config : AppConfig) (prompts : List String) :
    (gatherResults envf config prompts).length = prompts.length
    ∧ (batchItems envf config prompts).length
        = prompts.length
          - (gatherResults envf config prompts).countP (fun r => r.isNone)
    ∧ ((batchItems envf config prompts).map some).Sublist
        (gatherResults envf config prompts) := by
  refine ⟨?_, ?_, filterMap_id_map_some_sublist _⟩
  · simp [gatherResults, gatherOutcomes_length]
  · rw [batchItems, length_filterMap_id]
    congr 1
    simp [gatherResults, gatherOutcomes_length]

theorem gatherOutcomes_getElem (envf : Nat → FetchEnv) (config : AppConfig) :
    ∀ (prompts : List String) (idx i : Nat),
      (gatherOutcomes envf config idx prompts)[i]?
        = (prompts[i]?).map
            (fun p => request_image (envf (idx + i)) config p (idx + i)) := by
  intro prompts
  induction prompts with
  | nil => intro idx i; simp [gatherOutcomes]
  | cons p ps ih =>
    intro idx i
    cases i with
    | zero => simp [gatherOutcomes]
    | succ k =>
      simp only [gatherOutcomes, List.getElem?_cons_succ]
      have h : idx + 1 + k = idx + (k + 1) := by omega
      rw [ih (idx + 1) k, h]

/-- C2: failures are local and isolated: the i-th result depends only on the
i-th request environment; an API exception, a failing download, and a
missing-data response each make that request alone return `None`; the batch
always yields one outcome per request; and if every result is `None` the
final item list is empty. -/
theorem C2_failure_isolation (envf envf2 : Nat → FetchEnv) (config : AppConfig)
    (prompts : List String) (i : Nat) (e : FetchEnv) (p : String) (idx : Nat)
    (b64 url : Option String)
    (henv : envf (1 + i) = envf2 (1 + i)) :
    (gatherResults envf config prompts)[i]?
      = (gatherResults envf2 config prompts)[i]?
    ∧ (gatherResults envf config prompts).length = prompts.length
    ∧ (e.api = ApiResult.raises →
        (request_image e config p idx).result = none)
    ∧ (e.api = ApiResult.returns b64 url → truthyStr b64 = false →
        truthyStr url = true →
        e.download (url.getD "") = DownloadResult.raises →
        (request_image e config p idx).result = none)
    ∧ (e.api = ApiResult.returns b64 url → truthyStr b64 = false →
        truthyStr url = false →
        (request_image e config p idx).result = none)
    ∧ ((∀ r ∈ gatherResults envf config prompts, r = none) →
        batchItems envf config prompts = []) := by
  refine ⟨?_, ?_, ?_, ?_, ?_, ?_⟩
  · simp only [gatherResults, List.getElem?_map,
      gatherOutcomes_getElem, henv]
  · simp [gatherResults, gatherOutcomes_length]
  · intro h
    simp [request_image, h]
  · intro h hb hurl hdl
    simp [request_image, h, hb, hurl, hdl]
  · intro h hb hurl
    simp [request_image, h, hb, hurl]
  · intro h
    rw [batchItems]
    rw [List.filterMap_eq_nil_iff]
    intro a ha
    rw [h a ha]
    rfl

/-! ### Fixtures: concrete request environments -/

/-- A request whose API call succeeds with an inline base64 payload. -/
def envOkB64 : FetchEnv :=
  ⟨ApiResult.returns (some "QUFB") none,
   fun _ => DecodeResult.bytes [65, 65, 65],
   fun _ => DownloadResult.raises⟩

/-- A request whose API call raises. -/
def envApiFail : FetchEnv :=
  ⟨ApiResult.raises, fun _ => DecodeResult.raises, fun _ => DownloadResult.raises⟩

/-- A request whose API response carries neither `b64_json` nor `url`. -/
def envNoData : FetchEnv :=
  ⟨ApiResult.returns none none, fun _ => DecodeResult.raises,
   fun _ => DownloadResult.raises⟩

/-- The default configuration of the script. -/
def cfgDefault : AppConfig :=
  ⟨none, 8, "gpt-image-1-mini", "1024x1024", "high"⟩

theorem C2_witness :
    (request_image envApiFail cfgDefault "p" 1).result = none
    ∧ batchItems (fun _ => envApiFail) cfgDefault ["a", "b"] = [] :=
  ⟨(C2_failure_isolation (fun _ => envApiFail) (fun _ => envApiFail) cfgDefault
      ["a", "b"] 0 envApiFail "p" 1 none none rfl).2.2.1 rfl,
   (C2_failure_isolation (fun _ => envApiFail) (fun _ => envApiFail) cfgDefault
      ["a", "b"] 0 envApiFail "p" 1 none none rfl).2.2.2.2.2 (by decide)⟩

/-- C3: the code violates the claim that one unit of progress is always
signalled: on a response with neither an inline payload nor a URL,
`request_image` returns at line 154 before either `progress.advance` call,
so that request signals zero units; the error paths and the success path
signal exactly one. -/
theorem C3_missing_data_skips_progress :
    (request_image envNoData cfgDefault "a prompt" 1).advances = 0
    ∧ (request_image envNoData cfgDefault "a prompt" 1).result = none
    ∧ (request_image envApiFail cfgDefault "a prompt" 1).advances = 1
    ∧ (request_image envOkB64 cfgDefault "a prompt" 1).advances = 1 :=
  ⟨rfl, rfl, rfl, rfl⟩

theorem request_image_files (e : FetchEnv) (config : AppConfig) (p : String)
    (idx : Nat) :
    ((request_image e config p idx).result = none →
      (request_image e config p idx).files = [])
    ∧ (∀ entry, (request_image e config p idx).result = some entry →
        (request_image e config p idx).files.map Prod.fst = [entry.file]) := by
  rcases e with ⟨api, dec, dl⟩
  cases api with
  | raises =>
    exact ⟨fun _ => rfl, fun entry h => by simp [request_image] at h⟩
  | returns b64 url =>
    cases hb : truthyStr b64 with
    | true =>
      cases hdec : dec (b64.getD "") with
      | raises =>
        constructor
        · intro _; simp [request_image, hb, hdec]
        · intro entry h; simp [request_image, hb, hdec] at h
      | bytes png =>
        have hrr : (request_image ⟨ApiResult.returns b64 url, dec, dl⟩
            config p idx).result = some ⟨p, fileName idx p⟩ := by
          simp [request_image, hb, hdec]
        have hff : (request_image ⟨ApiResult.returns b64 url, dec, dl⟩
            config p idx).files = [(fileName idx p, png)] := by
          simp [request_image, hb, hdec]
        constructor
        · intro h; rw [hrr] at h; simp at h
        · intro entry h
          rw [hrr] at h
          injection h with h
          subst h
          rw [hff]
          rfl
    | false =>
      cases hurl : truthyStr url with
      | true =>
        cases hdl : dl (url.getD "") with
        | raises =>
          constructor
          · intro _; simp [request_image, hb, hurl, hdl]
          · intro entry h; simp [request_image, hb, hurl, hdl] at h
        | bytes content =>
          have hrr : (request_image ⟨ApiResult.returns b64 url, dec, dl⟩
              config p idx).result = some ⟨p, fileName idx p⟩ := by
            simp [request_image, hb, hurl, hdl]
          have hff : (request_image ⟨ApiResult.returns b64 url, dec, dl⟩
              config p idx).files = [(fileName idx p, content)] := by
            simp [request_image, hb, hurl, hdl]
          constructor
          · intro h; rw [hrr] at h; simp at h
          · intro entry h
            rw [hrr] at h
            injection h with h
            subst h
            rw [hff]
            rfl
      | false =>
        constructor
        · intro _; simp [request_image, hb, hurl]
        · intro entry h; simp [request_image, hb, hurl] at h

theorem batch_files_eq_manifest_files (envf : Nat → FetchEnv)
    (config : AppConfig) :
    ∀ (prompts : List String) (idx : Nat),
      (((gatherOutcomes envf config idx prompts).map
          FetchOutcome.result).filterMap id).map Entry.file
        = ((gatherOutcomes envf config idx prompts).flatMap
            FetchOutcome.files).map Prod.fst := by
  intro prompts
  induction prompts with
  | nil => intro _; rfl
  | cons p ps ih =>
    intro idx
    simp only [gatherOutcomes, List.map_cons, List.flatMap_cons,
      List.filterMap_cons]
    cases hres : (request_image (envf idx) config p idx).result with
    | none =>
      rw [(request_image_files (envf idx) config p idx).1 hres]
      simpa using ih (idx + 1)
    | some entry =>
      have hf := (request_image_files (envf idx) config p idx).2 entry hres
      simpa [List.map_append, hf] using ih (idx + 1)

/-- C4: a successful request writes exactly one file, named by its success
record; a failed request writes nothing; and the manifest holds exactly the
successful records, in submission order (failures leave no trace), its
file names matching one-to-one, in order, the files actually written. -/
theorem C4_files_and_manifest (e : FetchEnv) (config : AppConfig) (p : String)
    (idx : Nat) (envf : Nat → FetchEnv) (prompts : List String) :
    ((request_image e config p idx).result = none →
      (request_image e config p idx).files = [])
    ∧ (∀ entry, (request_image e config p idx).result = some entry →
        (request_image e config p idx).files.map Prod.fst = [entry.file])
    ∧ (batchManifest envf config prompts).map Entry.file
        = (batchFiles envf config prompts).map Prod.fst
    ∧ ((batchManifest envf config prompts).map some).Sublist
        (gatherResults envf config prompts) :=
  ⟨(request_image_files e config p idx).1,
   (request_image_files e config p idx).2,
   batch_files_eq_manifest_files envf config prompts 1,
   filterMap_id_map_some_sublist _⟩

theorem C4_witness :
    (request_image envApiFail cfgDefault "p" 1).files = []
    ∧ (request_image envOkB64 cfgDefault "p" 1).files.map Prod.fst
        = [fileName 1 "p"] :=
  ⟨(C4_files_and_manifest envApiFail cfgDefault "p" 1 (fun _ => envApiFail)
      []).1 rfl,
   (C4_files_and_manifest envOkB64 cfgDefault "p" 1 (fun _ => envOkB64)
      []).2.1 ⟨"p", fileName 1 "p"⟩ rfl⟩

/-! ### Exit-code claim -/

/-- C9: the run exits 0 on success, 1 exactly when settings loading (the API
key) fails, 2 exactly when argument validation fails; the failing exits
produce no generation artifacts, and as soon as settings and arguments are
accepted the exit code is 0 no matter what the per-request environments do. -/
theorem C9_exit_codes (env : MainEnv) :
    ((async_main env).1 = 1 ↔ env.settings = SettingsResult.raises)
    ∧ ((async_main env).1 = 2
        ↔ (env.settings = SettingsResult.ok ∧ validateConfig env.args = none))
    ∧ ((async_main env).1 ≠ 0 → (async_main env).2 = none)
    ∧ (env.settings = SettingsResult.ok →
        ∀ config, validateConfig env.args = some config →
          (async_main env).1 = 0) := by
  rcases env with ⟨settings, args, fetch, oS, oSub, oL⟩
  cases settings with
  | raises => simp [async_main]
  | ok =>
    cases hv : validateConfig args with
    | none => simp [async_main, hv]
    | some config => simp [async_main, hv]

/-- Arguments that pass validation. -/
def argsOk : CliArgs := ⟨none, 8, "gpt-image-1-mini", "1024x1024", "high"⟩

/-- Arguments with `count` outside `[1, 50]`. -/
def argsBad : CliArgs := ⟨none, 0, "gpt-image-1-mini", "1024x1024", "high"⟩

def mainEnvNoKey : MainEnv :=
  ⟨SettingsResult.raises, argsOk, fun _ => envApiFail,
   fun _ => 0, fun _ => 0, fun _ => 0⟩

def mainEnvBadArgs : MainEnv :=
  ⟨SettingsResult.ok, argsBad, fun _ => envApiFail,
   fun _ => 0, fun _ => 0, fun _ => 0⟩

def mainEnvOk : MainEnv :=
  ⟨SettingsResult.ok, argsOk, fun _ => envApiFail,
   fun _ => 0, fun _ => 0, fun _ => 0⟩

theorem C9_witness :
    (async_main mainEnvNoKey).1 = 1
    ∧ (async_main mainEnvBadArgs).1 = 2
    ∧ (async_main mainEnvOk).1 = 0 :=
  ⟨(C9_exit_codes mainEnvNoKey).1.mpr rfl,
   (C9_exit_codes mainEnvBadArgs).2.1.mpr ⟨rfl, rfl⟩,
   (C9_exit_codes mainEnvOk).2.2.2 rfl
     ⟨none, 8, "gpt-image-1-mini", "1024x1024", "high"⟩ rfl⟩

end ImageGen
